import Mathlib

/-!
Verification of the Interview Analysis Pipeline of the
worlds-hardest-interview repository, as a shallow embedding in Lean 4.

Sources embedded here:
* `src/app/api/score-interview/route.ts` — inline rate limiter,
  tier derivation, scoring-response validator, route input checks and
  response-text parsing,
* `src/lib/constants.ts` — `ELO_TIERS`, `HIRED_THRESHOLD`,
  `MAX_TRANSCRIPT_LENGTH`, `MAX_CV_TEXT_LENGTH`,
* `src/lib/elevenlabs.ts` — `fetchTranscript` polling loop,
* `src/hooks/useInterviewWizard.ts` — wizard state and `resetForRetry`.

JavaScript values that flow through `JSON.parse` and property reads are
modelled by the `JsValue` type below; JavaScript numbers are modelled as
exact rationals plus the non-finite values (the ratings and delays used
by this code are small and exact in IEEE doubles, so rationals are
faithful here).  `console.warn` / `console.error` logging is I/O with no
effect on any returned value and is not modelled.
-/

namespace WHI

/-- A JavaScript number: either a finite value (as an exact rational) or
one of the non-finite values that `Number.isFinite` rejects. -/
inductive JsNumber
  | finite (q : ℚ)
  | nan
  | posInf
  | negInf
deriving DecidableEq, Repr

/-- An untyped JavaScript value as seen by the validator after
`JSON.parse` (plus `undefined`, the result of reading an absent
property). Objects are association lists of fields. -/
inductive JsValue
  | jUndefined
  | jNull
  | jBool (b : Bool)
  | jNum (n : JsNumber)
  | jStr (s : String)
  | jArr (elems : List JsValue)
  | jObj (fields : List (String × JsValue))

/-- First-match field lookup in an object's field list. -/
def lookupField : List (String × JsValue) → String → JsValue
  | [], _ => .jUndefined
  | (k, v) :: rest, key => if k = key then v else lookupField rest key

/-- `v.key` — property read on an untyped value: a field of an object,
`undefined` otherwise.  (Reading a property of `null` throws in JS and
is caught by the route's outer handler; it never produces a validated
result, which is all the theorems below depend on.) -/
def getField (v : JsValue) (key : String) : JsValue :=
  match v with
  | .jObj fields => lookupField fields key
  | _ => .jUndefined

/-- `typeof v === "object" && v !== null` (arrays included). -/
def jsIsObject : JsValue → Bool
  | .jObj _ => true
  | .jArr _ => true
  | _ => false

/-- Whitespace as trimmed by `String.prototype.trim` (the ASCII cases;
the payloads here contain no exotic Unicode spaces). -/
def isJsWhitespace (c : Char) : Bool :=
  c = ' ' ∨ c = '\t' ∨ c = '\n' ∨ c = '\r' ∨ c = '\x0b' ∨ c = '\x0c'

/-- `s.trim()`: drop leading and trailing whitespace. -/
def jsTrim (s : String) : String :=
  String.mk (((s.data.dropWhile isJsWhitespace).reverse.dropWhile isJsWhitespace).reverse)

/-- `s.trim().length === 0`. -/
def jsTrimIsEmpty (s : String) : Bool := (jsTrim s).data.isEmpty

/-- `Math.round` on a finite JS number: round half toward +∞, i.e.
`⌊q + 1/2⌋`, computed on the exact fraction (the theorem
`jsRound_eq_floor` below shows this definition equals that floor). -/
def jsRound (q : ℚ) : ℤ := Int.fdiv (2 * q.num + q.den) (2 * q.den)

-- ─── Constants (src/lib/constants.ts) ───────────────────────────────────────

/-- The six boss-themed tier names (`BossTier` in `src/lib/types.ts`). -/
inductive BossTier
  | wastingMyTime
  | showsAPulse
  | adequate
  | noteworthy
  | impressive
  | hiredMaterial
deriving DecidableEq, Repr

/-- The binary verdict (`"HIRED" | "NOT HIRED"` in `src/lib/types.ts`). -/
inductive Verdict
  | HIRED
  | NOT_HIRED
deriving DecidableEq, Repr

/-- One row of the `ELO_TIERS` boundary table. -/
structure EloTierDefinition where
  name : BossTier
  min : ℤ
  max : ℤ
  colour : String
deriving DecidableEq, Repr

/-- `ELO_TIERS` from `src/lib/constants.ts`: boundaries inclusive on
both ends, ordered lowest to highest. -/
def ELO_TIERS : List EloTierDefinition :=
  [ ⟨.wastingMyTime, 100, 599, "var(--color-error)"⟩,
    ⟨.showsAPulse, 600, 999, "var(--color-warning-strong)"⟩,
    ⟨.adequate, 1000, 1399, "var(--color-warning)"⟩,
    ⟨.noteworthy, 1400, 1799, "var(--color-success)"⟩,
    ⟨.impressive, 1800, 2199, "var(--color-accent)"⟩,
    ⟨.hiredMaterial, 2200, 3000, "var(--color-elite)"⟩ ]

/-- `HIRED_THRESHOLD` from `src/lib/constants.ts`. -/
def HIRED_THRESHOLD : ℤ := 2200

/-- `MAX_CV_TEXT_LENGTH` from `src/lib/constants.ts`. -/
def MAX_CV_TEXT_LENGTH : ℕ := 100000

/-- `MAX_TRANSCRIPT_LENGTH` from `src/lib/constants.ts`. -/
def MAX_TRANSCRIPT_LENGTH : ℕ := 200000

-- ─── Tier self-healing (deriveTierFromRating) ───────────────────────────────

/-- The `for (const tier of ELO_TIERS)` loop of `deriveTierFromRating`:
the first tier whose inclusive range contains the rating. -/
def findTier : List EloTierDefinition → ℤ → Option EloTierDefinition
  | [], _ => none
  | tier :: rest, rating =>
    if tier.min ≤ rating ∧ rating ≤ tier.max then some tier else findTier rest rating

/-- `deriveTierFromRating` from `src/app/api/score-interview/route.ts`:
first tier of `ELO_TIERS` whose inclusive range contains the rating,
with the documented fallbacks for out-of-table ratings. -/
def deriveTierFromRating (rating : ℤ) : BossTier :=
  match findTier ELO_TIERS rating with
  | some tier => tier.name
  | none => if rating < 100 then .wastingMyTime else .hiredMaterial

-- ─── Validated result shape (ScoringResults, src/lib/types.ts) ──────────────

/-- A validated scoring dimension (`Dimension` in `src/lib/types.ts`).
The name is one of the five dimension keys; the invariant is proved
about `validateScoringResponse` rather than baked into the type. -/
structure Dimension where
  name : String
  score : ℚ
  feedback : String
deriving DecidableEq, Repr

/-- A validated chess-style moment ( `MomentAnnotation` in
`src/lib/types.ts`). -/
structure MomentAnnotation where
  type : String
  question : String
  quote : String
  explanation : String
deriving DecidableEq, Repr

/-- The canonical post-validation result (`ScoringResults` in
`src/lib/types.ts`). -/
structure ScoringResults where
  eloRating : ℤ
  tier : BossTier
  verdict : Verdict
  bossSummary : String
  dimensions : List Dimension
  moments : List MomentAnnotation
  isPartial : Bool
  note : Option String
deriving DecidableEq, Repr

-- ─── Validator (validateScoringResponse) ────────────────────────────────────

/-- `VALID_DIMENSIONS` from the route: the fixed 5-key set. -/
def VALID_DIMENSIONS : List String :=
  ["communication", "technical", "behavioural", "confidence", "questionsAsked"]

/-- `VALID_ANNOTATION_TYPES` from the route: the fixed 6-value set. -/
def VALID_ANNOTATION_TYPES : List String :=
  ["brilliant", "good", "neutral", "inaccuracy", "mistake", "blunder"]

/-- The `for (const dim of parsed.dimensions)` loop of
`validateScoringResponse`: validates each entry in order, accumulating
the set of names seen so far (as a duplicate-free list) and the
validated entries.  Error messages keep the source's fixed prefixes;
interpolated values are omitted. -/
def validateDimensionEntries : List JsValue → List String → Except String (List String × List Dimension)
  | [], seen => .ok (seen, [])
  | entry :: rest, seen =>
    if jsIsObject entry then
      match getField entry ("name") with
      | .jStr name =>
        if name ∈ VALID_DIMENSIONS then
          if name ∈ seen then .error ("Duplicate dimension")
          else
            match getField entry ("score") with
            | .jNum (.finite score) =>
              match getField entry ("feedback") with
              | .jStr feedback =>
                if jsTrimIsEmpty feedback then .error ("Dimension has empty or missing feedback")
                else
                  match validateDimensionEntries rest (seen ++ [name]) with
                  | .error e => .error e
                  | .ok (names, dims) => .ok (names, ⟨name, score, feedback⟩ :: dims)
              | _ => .error ("Dimension has empty or missing feedback")
            | _ => .error ("Dimension has invalid score")
        else .error ("Invalid dimension name")
      | _ => .error ("Invalid dimension name")
    else .error ("dimension entry is not an object")

/-- The `for (const moment of parsed.moments)` loop of
`validateScoringResponse`. -/
def validateMomentEntries : List JsValue → Except String (List MomentAnnotation)
  | [] => .ok []
  | entry :: rest =>
    if jsIsObject entry then
      match getField entry ("type") with
      | .jStr mtype =>
        if mtype ∈ VALID_ANNOTATION_TYPES then
          match getField entry ("question") with
          | .jStr question =>
            if jsTrimIsEmpty question then .error ("Moment has empty or missing question")
            else
              match getField entry ("quote") with
              | .jStr quote =>
                if jsTrimIsEmpty quote then .error ("Moment has empty or missing quote")
                else
                  match getField entry ("explanation") with
                  | .jStr explanation =>
                    if jsTrimIsEmpty explanation then .error ("Moment has empty or missing explanation")
                    else
                      match validateMomentEntries rest with
                      | .error e => .error e
                      | .ok ms => .ok (⟨mtype, question, quote, explanation⟩ :: ms)
                  | _ => .error ("Moment has empty or missing explanation")
              | _ => .error ("Moment has empty or missing quote")
          | _ => .error ("Moment has empty or missing question")
        else .error ("Invalid annotation type")
      | _ => .error ("Invalid annotation type")
    else .error ("moment entry is not an object")

/-- `typeof v === "boolean" ? v : false` (the `isPartial` default). -/
def jsBoolOrFalse : JsValue → Bool
  | .jBool b => b
  | _ => false

/-- The optional `note`: included only when it is a string that is
non-empty after trimming. -/
def jsOptionalNote : JsValue → Option String
  | .jStr s => if jsTrimIsEmpty s then none else some s
  | _ => none

/-- `validateScoringResponse` from `src/app/api/score-interview/route.ts`.
Checks follow the source order: `eloRating` type/finiteness, range,
rounding, tier and verdict self-healing (the raw `tier`/`verdict`
fields are read only for `console.warn` logging, which is not
modelled), `bossSummary`, `dimensions`, the 5-key completeness check,
`moments`, `isPartial` defaulting, optional `note`. -/
def validateScoringResponse (parsed : JsValue) : Except String ScoringResults :=
  match getField parsed ("eloRating") with
  | .jNum (.finite rawRating) =>
    if rawRating < 100 ∨ 3000 < rawRating then
      .error ("eloRating is outside valid range (100-3000)")
    else
      let roundedRating := jsRound rawRating
      let correctTier := deriveTierFromRating roundedRating
      let correctVerdict := if HIRED_THRESHOLD ≤ roundedRating then Verdict.HIRED else Verdict.NOT_HIRED
      match getField parsed ("bossSummary") with
      | .jStr bossSummary =>
        if jsTrimIsEmpty bossSummary then .error ("bossSummary is missing or empty")
        else
          match getField parsed ("dimensions") with
          | .jArr dimEntries =>
            match validateDimensionEntries dimEntries [] with
            | .error e => .error e
            | .ok (dimensionNames, validatedDimensions) =>
              if dimensionNames.length ≠ VALID_DIMENSIONS.length then .error ("Missing dimensions")
              else
                match getField parsed ("moments") with
                | .jArr momentEntries =>
                  match validateMomentEntries momentEntries with
                  | .error e => .error e
                  | .ok validatedMoments =>
                    .ok { eloRating := roundedRating,
                          tier := correctTier,
                          verdict := correctVerdict,
                          bossSummary := bossSummary,
                          dimensions := validatedDimensions,
                          moments := validatedMoments,
                          isPartial := jsBoolOrFalse (getField parsed ("isPartial")),
                          note := jsOptionalNote (getField parsed ("note")) }
                | _ => .error ("moments is not an array")
          | _ => .error ("dimensions is not an array")
      | _ => .error ("bossSummary is missing or empty")
  | _ => .error ("eloRating is not a valid number")

-- ─── Canonical results as a JSON payload (for idempotence) ──────────────────

/-- Display name of a tier, as serialised by `NextResponse.json`. -/
def bossTierName : BossTier → String
  | .wastingMyTime => "Wasting My Time"
  | .showsAPulse => "Shows a Pulse"
  | .adequate => "Adequate"
  | .noteworthy => "Noteworthy"
  | .impressive => "Impressive"
  | .hiredMaterial => "Hired Material"

/-- Display name of a verdict, as serialised by `NextResponse.json`. -/
def verdictName : Verdict → String
  | .HIRED => "HIRED"
  | .NOT_HIRED => "NOT HIRED"

/-- A validated dimension as the JSON object the route serialises. -/
def dimensionToJs (d : Dimension) : JsValue :=
  .jObj [("name", .jStr d.name), ("score", .jNum (.finite d.score)), ("feedback", .jStr d.feedback)]

/-- A validated moment as the JSON object the route serialises. -/
def momentToJs (m : MomentAnnotation) : JsValue :=
  .jObj [("type", .jStr m.type), ("question", .jStr m.question),
         ("quote", .jStr m.quote), ("explanation", .jStr m.explanation)]

/-- A `ScoringResults` value re-read as a raw payload: exactly the
shape `NextResponse.json(results)` emits (the `note` key is omitted
when absent, as `undefined` fields are dropped by JSON serialisation). -/
def scoringResultsToJs (r : ScoringResults) : JsValue :=
  .jObj ([("eloRating", .jNum (.finite (r.eloRating : ℚ))),
          ("tier", .jStr (bossTierName r.tier)),
          ("verdict", .jStr (verdictName r.verdict)),
          ("bossSummary", .jStr r.bossSummary),
          ("dimensions", .jArr (r.dimensions.map dimensionToJs)),
          ("moments", .jArr (r.moments.map momentToJs)),
          ("isPartial", .jBool r.isPartial)] ++
         (match r.note with
          | some n => [("note", .jStr n)]
          | none => []))

-- ─── Sliding-window rate limiter (inline in the route files) ────────────────

/-- The module-scope `rateLimitStore` map plus `rateLimitCallCount`. -/
structure RateLimitState where
  store : List (String × List ℤ)
  callCount : ℕ
deriving DecidableEq, Repr

/-- `rateLimitStore.get(key)`. -/
def lookupStore : List (String × List ℤ) → String → Option (List ℤ)
  | [], _ => none
  | (k, v) :: rest, key => if k = key then some v else lookupStore rest key

/-- `rateLimitStore.set(key, v)`: replace an existing entry or insert. -/
def setStore : List (String × List ℤ) → String → List ℤ → List (String × List ℤ)
  | [], key, v => [(key, v)]
  | (k, w) :: rest, key, v => if k = key then (key, v) :: rest else (k, w) :: setStore rest key v

/-- `timestamps.filter((t) => now - t < windowMs)`. -/
def pruneTimestamps (now windowMs : ℤ) (timestamps : List ℤ) : List ℤ :=
  timestamps.filter (fun t => decide (now - t < windowMs))

/-- The periodic cleanup body: re-filter every key with this call's
window, deleting keys whose filtered list is empty. -/
def sweepStore (now windowMs : ℤ) (store : List (String × List ℤ)) : List (String × List ℤ) :=
  store.filterMap (fun kv =>
    let filtered := pruneTimestamps now windowMs kv.2
    if filtered.isEmpty then none else some (kv.1, filtered))

/-- `rateLimit` from `src/app/api/score-interview/route.ts` (the same
function is inlined in `src/app/api/conversations/[id]/route.ts`),
with `Date.now()` passed in as `now`.  Returns the
`{success, remaining}` pair and the updated module state. -/
def rateLimit (st : RateLimitState) (identifier : String) (maxRequests : ℕ)
    (windowMs : ℤ) (ns : String) (now : ℤ) : (Bool × ℕ) × RateLimitState :=
  let key := ns ++ ":" ++ identifier
  let timestamps := (lookupStore st.store key).getD []
  let valid := pruneTimestamps now windowMs timestamps
  let callCount := st.callCount + 1
  let store1 := if callCount % 100 = 0 then sweepStore now windowMs st.store else st.store
  if maxRequests ≤ valid.length then
    ((false, 0), ⟨setStore store1 key valid, callCount⟩)
  else
    let valid2 := valid ++ [now]
    ((true, maxRequests - valid2.length), ⟨setStore store1 key valid2, callCount⟩)

/-- `n` sequential admission calls on the same key at the same instant,
returning the list of `success` flags in call order. -/
def burstCalls (st : RateLimitState) (identifier : String) (maxRequests : ℕ)
    (windowMs : ℤ) (ns : String) (now : ℤ) : ℕ → List Bool × RateLimitState
  | 0 => ([], st)
  | n + 1 =>
    let r := rateLimit st identifier maxRequests windowMs ns now
    let rest := burstCalls r.2 identifier maxRequests windowMs ns now n
    (r.1.1 :: rest.1, rest.2)

-- ─── Transcript retriever (src/lib/elevenlabs.ts) ───────────────────────────

/-- A transcript entry as consumed by the client
(`TranscriptEntry` in `src/lib/types.ts`). -/
structure TranscriptEntry where
  role : String
  message : String
  timestamp : Option ℚ
deriving DecidableEq, Repr

/-- `BASE_DELAY_MS` from `src/lib/elevenlabs.ts`. -/
def BASE_DELAY_MS : ℚ := 3000

/-- `BACKOFF_MULTIPLIER` from `src/lib/elevenlabs.ts` (1.5 = 3/2). -/
def BACKOFF_MULTIPLIER : ℚ := 3 / 2

/-- `MAX_ATTEMPTS` from `src/lib/elevenlabs.ts`. -/
def MAX_ATTEMPTS : ℕ := 5

/-- The delay slept after the 0-indexed attempt `k` reports "not
ready": `BASE_DELAY_MS * BACKOFF_MULTIPLIER ** attempt`. -/
def backoffDelay (k : ℕ) : ℚ := BASE_DELAY_MS * BACKOFF_MULTIPLIER ^ k

/-- What one `fetch` of `/api/conversations/:id` produces, from the
client's point of view:  a thrown network error, a 200 whose JSON body
parsed (`some transcript`) or did not (`none`), a 202 "not ready", or
any other status with an optional parsed `error` field. -/
inductive PollResponse
  | networkError
  | status200 (transcriptBody : Option (List TranscriptEntry))
  | status202
  | statusOther (status : ℕ) (errorBody : Option String)

/-- Success or a thrown `Error` with its message. -/
inductive FetchOutcome
  | ok (transcript : List TranscriptEntry)
  | error (msg : String)
deriving DecidableEq, Repr

/-- The observable trace of one `fetchTranscript` run: the sleeps in
order, the number of polls made, and the outcome. -/
structure FetchTrace where
  delays : List ℚ
  attempts : ℕ
  outcome : FetchOutcome
deriving DecidableEq, Repr

/-- Message thrown when `fetch` itself rejects. -/
def networkErrorMessage : String :=
  "Network error — please check your connection and try again."

/-- Message thrown when a 200 body fails to parse. -/
def badResponseMessage : String :=
  "Failed to fetch transcript — unexpected server response."

/-- Message thrown after exhausting `MAX_ATTEMPTS` while still 202. -/
def notReadyMessage : String :=
  "Transcript is not yet available. Please wait a moment and try again."

/-- Fallback message for a hard (non-200/202) response carrying no
parsed `error` field. -/
def upstreamDefaultMessage (status : ℕ) : String :=
  "Failed to fetch transcript (" ++ toString status ++ ")"

/-- The `for (attempt …)` loop of `fetchTranscript`, from loop counter
`attempt` with `fuel` iterations left (`fuel = MAX_ATTEMPTS - attempt`
at the top-level call).  The sleep is recorded only when
`attempt < MAX_ATTEMPTS - 1`, exactly as in the source. -/
def fetchGo (poll : ℕ → PollResponse) : ℕ → ℕ → FetchTrace
  | _, 0 => ⟨[], 0, .error notReadyMessage⟩
  | attempt, fuel + 1 =>
    match poll attempt with
    | .networkError => ⟨[], 1, .error networkErrorMessage⟩
    | .status200 (some transcript) => ⟨[], 1, .ok transcript⟩
    | .status200 none => ⟨[], 1, .error badResponseMessage⟩
    | .status202 =>
      let rest := fetchGo poll (attempt + 1) fuel
      let delays := if attempt < MAX_ATTEMPTS - 1 then backoffDelay attempt :: rest.delays else rest.delays
      ⟨delays, rest.attempts + 1, rest.outcome⟩
    | .statusOther _ (some msg) => ⟨[], 1, .error msg⟩
    | .statusOther status none => ⟨[], 1, .error (upstreamDefaultMessage status)⟩

/-- `fetchTranscript` from `src/lib/elevenlabs.ts`, as a function of
the sequence of poll responses. -/
def fetchTranscript (poll : ℕ → PollResponse) : FetchTrace :=
  fetchGo poll 0 MAX_ATTEMPTS

-- ─── Wizard state (src/hooks/useInterviewWizard.ts) ─────────────────────────

/-- The five wizard steps (`WizardStep` in `src/lib/types.ts`). -/
inductive WizardStep
  | landing
  | uploadCv
  | interview
  | analysis
  | results
deriving DecidableEq, Repr

/-- Analysis pipeline phases 1 | 2 | 3 (`AnalysisPhase`). -/
inductive AnalysisPhase
  | phase1
  | phase2
  | phase3
deriving DecidableEq, Repr

/-- `WizardState` from `src/lib/types.ts`. -/
structure WizardState where
  step : WizardStep
  cvText : Option String
  cvFileName : Option String
  conversationId : Option String
  transcript : Option (List TranscriptEntry)
  results : Option ScoringResults
  analysisPhase : Option AnalysisPhase
  error : Option String
  loading : Bool
deriving DecidableEq, Repr

/-- `INITIAL_STATE` from `src/hooks/useInterviewWizard.ts`. -/
def INITIAL_STATE : WizardState :=
  { step := .landing,
    cvText := none,
    cvFileName := none,
    conversationId := none,
    transcript := none,
    results := none,
    analysisPhase := none,
    error := none,
    loading := false }

/-- The `resetForRetry` action: spread `INITIAL_STATE`, force `step`
to "interview", and keep the current CV fields. -/
def resetForRetry (current : WizardState) : WizardState :=
  { INITIAL_STATE with
    step := .interview,
    cvText := current.cvText,
    cvFileName := current.cvFileName }

/-- The `resetFull` action. -/
def resetFull (_current : WizardState) : WizardState := INITIAL_STATE

-- ─── Decidability helper and concrete sample payloads ───────────────────────

instance {ε α : Type} [DecidableEq ε] [DecidableEq α] : DecidableEq (Except ε α) := fun a b =>
  match a, b with
  | Except.error e, Except.error f => decidable_of_iff (e = f) (by simp)
  | Except.ok x, Except.ok y => decidable_of_iff (x = y) (by simp)
  | Except.error _, Except.ok _ => isFalse (by simp)
  | Except.ok _, Except.error _ => isFalse (by simp)

/-- A concrete well-formed `dimensions` payload (all 5 keys). -/
def sampleDims : List JsValue :=
  [ .jObj [("name", .jStr "communication"), ("score", .jNum (.finite 7)), ("feedback", .jStr "Adequate structure.")],
    .jObj [("name", .jStr "technical"), ("score", .jNum (.finite 6)), ("feedback", .jStr "Surface level.")],
    .jObj [("name", .jStr "behavioural"), ("score", .jNum (.finite 5)), ("feedback", .jStr "Vague examples.")],
    .jObj [("name", .jStr "confidence"), ("score", .jNum (.finite 8)), ("feedback", .jStr "Composed.")],
    .jObj [("name", .jStr "questionsAsked"), ("score", .jNum (.finite 4)), ("feedback", .jStr "Generic questions.")] ]

/-- A concrete well-formed `moments` payload. -/
def sampleMoments : List JsValue :=
  [ .jObj [("type", .jStr "good"), ("question", .jStr "Tell me about a project."),
           ("quote", .jStr "I led the migration."), ("explanation", .jStr "Specific and relevant.")] ]

/-- The rational 2300.5 = 4601/2, written as an explicit reduced
fraction so that it evaluates by kernel reduction. -/
def sampleRating : ℚ := ⟨4601, 2, by decide, by decide⟩

/-- A concrete raw payload: decimal rating 2300.5, a wrong raw tier and
a raw verdict outside the two valid categories. -/
def samplePayload : JsValue :=
  .jObj [("eloRating", .jNum (.finite sampleRating)),
         ("tier", .jStr "Adequate"),
         ("verdict", .jStr "BANANA"),
         ("bossSummary", .jStr "You surprised me."),
         ("dimensions", .jArr sampleDims),
         ("moments", .jArr sampleMoments),
         ("isPartial", .jBool false)]

/-- The canonical result the validator produces on `samplePayload`. -/
def sampleResult : ScoringResults :=
  { eloRating := 2301, tier := .hiredMaterial, verdict := .HIRED,
    bossSummary := "You surprised me.",
    dimensions := [⟨"communication", 7, "Adequate structure."⟩, ⟨"technical", 6, "Surface level."⟩,
                   ⟨"behavioural", 5, "Vague examples."⟩, ⟨"confidence", 8, "Composed."⟩,
                   ⟨"questionsAsked", 4, "Generic questions."⟩],
    moments := [⟨"good", "Tell me about a project.", "I led the migration.", "Specific and relevant."⟩],
    isPartial := false, note := none }

-- ─── Properties of jsRound ──────────────────────────────────────────────────

theorem jsRound_eq_floor (q : ℚ) : jsRound q = Int.floor (q + 1 / 2) := by
  have hd : ((q.den : ℚ)) ≠ 0 := Nat.cast_ne_zero.mpr q.den_nz
  have hqd : q * (q.den : ℚ) = (q.num : ℚ) := by
    nth_rewrite 1 [← Rat.num_div_den q]
    exact div_mul_cancel₀ _ hd
  have h1 : q + 1 / 2 = ((2 * q.num + (q.den : ℤ) : ℤ) : ℚ) / (((2 * q.den : ℕ) : ℕ) : ℚ) := by
    rw [eq_div_iff (by push_cast; positivity)]
    push_cast
    linear_combination 2 * hqd
  rw [h1, Rat.floor_intCast_div_natCast]
  unfold jsRound
  rw [Int.fdiv_eq_ediv _ (by positivity)]
  congr 1

theorem jsRound_le_of_le (q : ℚ) (z : ℤ) (h : q ≤ (z : ℚ)) : jsRound q ≤ z := by
  rw [jsRound_eq_floor]
  exact Int.lt_add_one_iff.mp (Int.floor_lt.mpr (by push_cast; linarith))

theorem le_jsRound_of_le (q : ℚ) (z : ℤ) (h : (z : ℚ) ≤ q) : z ≤ jsRound q := by
  rw [jsRound_eq_floor]
  exact Int.le_floor.mpr (by linarith)

theorem jsRound_intCast (z : ℤ) : jsRound ((z : ℚ)) = z := by
  rw [jsRound_eq_floor]
  rw [Int.floor_eq_iff]
  constructor
  · linarith
  · linarith

-- ─── C10: resetForRetry preserves exactly the CV fields ─────────────────────

/-- C10: for every wizard state, `resetForRetry` preserves exactly the
CV fields and nothing else: `cvText` and `cvFileName` are taken from the
prior state, `step` becomes "interview", and every other field
(`conversationId`, `transcript`, `results`, `analysisPhase`, `error`,
`loading`) equals its value in `INITIAL_STATE`. -/
theorem claim_C10_resetForRetry_frame (s : WizardState) :
    (resetForRetry s).cvText = s.cvText ∧
    (resetForRetry s).cvFileName = s.cvFileName ∧
    (resetForRetry s).step = WizardStep.interview ∧
    (resetForRetry s).conversationId = INITIAL_STATE.conversationId ∧
    (resetForRetry s).transcript = INITIAL_STATE.transcript ∧
    (resetForRetry s).results = INITIAL_STATE.results ∧
    (resetForRetry s).analysisPhase = INITIAL_STATE.analysisPhase ∧
    (resetForRetry s).error = INITIAL_STATE.error ∧
    (resetForRetry s).loading = INITIAL_STATE.loading :=
  ⟨rfl, rfl, rfl, rfl, rfl, rfl, rfl, rfl, rfl⟩

-- ─── Tier characterization ──────────────────────────────────────────────────

theorem deriveTierFromRating_eq (r : ℤ) :
    deriveTierFromRating r =
      if r ≤ 599 then BossTier.wastingMyTime
      else if r ≤ 999 then BossTier.showsAPulse
      else if r ≤ 1399 then BossTier.adequate
      else if r ≤ 1799 then BossTier.noteworthy
      else if r ≤ 2199 then BossTier.impressive
      else BossTier.hiredMaterial := by
  simp only [deriveTierFromRating, findTier, ELO_TIERS]
  split_ifs <;> first | rfl | omega

-- ─── Validator structure lemmas ─────────────────────────────────────────────


/-- What one raw dimension entry must look like to have produced a
given validated dimension. -/
def DimEntryMatches (e : JsValue) (d : Dimension) : Prop :=
  getField e ("name") = .jStr d.name ∧
  getField e ("score") = .jNum (.finite d.score) ∧
  getField e ("feedback") = .jStr d.feedback

theorem validateDimensionEntries_ok_spec :
    ∀ (entries : List JsValue) (seen names : List String) (dims : List Dimension),
      validateDimensionEntries entries seen = .ok (names, dims) →
      names = seen ++ dims.map Dimension.name ∧
      (∀ d ∈ dims, d.name ∈ VALID_DIMENSIONS ∧ jsTrimIsEmpty d.feedback = false ∧ d.name ∉ seen) ∧
      (seen.Nodup → names.Nodup) ∧
      List.Forall₂ DimEntryMatches entries dims := by
  intro entries
  induction entries with
  | nil =>
    intro seen names dims h
    unfold validateDimensionEntries at h
    simp only [Except.ok.injEq, Prod.mk.injEq] at h
    obtain ⟨h1, h2⟩ := h
    subst h1; subst h2
    simp
  | cons entry rest ih =>
    intro seen names dims h
    unfold validateDimensionEntries at h
    split at h
    case isTrue hobj =>
      split at h
      case h_1 name hname =>
        split at h
        case isTrue hvalid =>
          split at h
          case isTrue hdup => simp at h
          case isFalse hdup =>
            split at h
            case h_1 score hscore =>
              split at h
              case h_1 feedback hfb =>
                split at h
                case isTrue => simp at h
                case isFalse htrim =>
                  split at h
                  case h_1 e heq => simp at h
                  case h_2 pair names2 dims2 heq =>
                    simp only [Except.ok.injEq, Prod.mk.injEq] at h
                    obtain ⟨hn, hd⟩ := h
                    subst hn; subst hd
                    obtain ⟨ihn, ihwf, ihnodup, ihmatch⟩ := ih (seen ++ [name]) names2 dims2 heq
                    refine ⟨by simp [ihn], ?_, ?_, ?_⟩
                    · intro d hdm
                      rcases List.mem_cons.mp hdm with rfl | hdm2
                      · exact ⟨hvalid, by simpa using htrim, hdup⟩
                      · obtain ⟨w1, w2, w3⟩ := ihwf d hdm2
                        exact ⟨w1, w2, fun hmem => w3 (by simp [hmem])⟩
                    · intro hseen
                      apply ihnodup
                      simp [List.nodup_append, hseen, hdup]
                    · exact List.Forall₂.cons ⟨hname, hscore, hfb⟩ ihmatch
              case h_2 => simp at h
            case h_2 => simp at h
        case isFalse => simp at h
      case h_2 => simp at h
    case isFalse => simp at h

/-- What one raw moment entry must look like to have produced a given
validated moment. -/
def MomentEntryMatches (e : JsValue) (m : MomentAnnotation) : Prop :=
  getField e ("type") = .jStr m.type ∧
  getField e ("question") = .jStr m.question ∧
  getField e ("quote") = .jStr m.quote ∧
  getField e ("explanation") = .jStr m.explanation

theorem validateMomentEntries_ok_spec :
    ∀ (entries : List JsValue) (ms : List MomentAnnotation),
      validateMomentEntries entries = .ok ms →
      (∀ m ∈ ms, m.type ∈ VALID_ANNOTATION_TYPES ∧
        jsTrimIsEmpty m.question = false ∧ jsTrimIsEmpty m.quote = false ∧
        jsTrimIsEmpty m.explanation = false) ∧
      List.Forall₂ MomentEntryMatches entries ms := by
  intro entries
  induction entries with
  | nil =>
    intro ms h
    unfold validateMomentEntries at h
    simp only [Except.ok.injEq] at h
    subst h
    simp
  | cons entry rest ih =>
    intro ms h
    unfold validateMomentEntries at h
    split at h
    case isTrue hobj =>
      split at h
      case h_1 mtype htype =>
        split at h
        case isTrue hvalid =>
          split at h
          case h_1 question hq =>
            split at h
            case isTrue => simp at h
            case isFalse hqt =>
              split at h
              case h_1 quote hqu =>
                split at h
                case isTrue => simp at h
                case isFalse hqut =>
                  split at h
                  case h_1 explanation hex =>
                    split at h
                    case isTrue => simp at h
                    case isFalse hext =>
                      split at h
                      case h_1 e heq => simp at h
                      case h_2 ms2 heq =>
                        simp only [Except.ok.injEq] at h
                        subst h
                        obtain ⟨ihwf, ihmatch⟩ := ih ms2 heq
                        refine ⟨?_, ?_⟩
                        · intro m hm
                          rcases List.mem_cons.mp hm with rfl | hm2
                          · exact ⟨hvalid, by simpa using hqt, by simpa using hqut, by simpa using hext⟩
                          · exact ihwf m hm2
                        · exact List.Forall₂.cons ⟨htype, hq, hqu, hex⟩ ihmatch
                  case h_2 => simp at h
              case h_2 => simp at h
          case h_2 => simp at h
        case isFalse => simp at h
      case h_2 => simp at h
    case isFalse => simp at h

theorem validateDimensionEntries_roundtrip :
    ∀ (dims : List Dimension) (seen : List String),
      (∀ d ∈ dims, d.name ∈ VALID_DIMENSIONS ∧ jsTrimIsEmpty d.feedback = false ∧ d.name ∉ seen) →
      (dims.map Dimension.name).Nodup →
      validateDimensionEntries (dims.map dimensionToJs) seen = .ok (seen ++ dims.map Dimension.name, dims) := by
  intro dims
  induction dims with
  | nil => intro seen _ _; simp [validateDimensionEntries]
  | cons d rest ih =>
    intro seen hwf hnodup
    obtain ⟨hv, htrim, hseen⟩ := hwf d (by simp)
    have hrest : ∀ e ∈ rest, e.name ∈ VALID_DIMENSIONS ∧ jsTrimIsEmpty e.feedback = false ∧
        e.name ∉ seen ++ [d.name] := by
      intro e he
      obtain ⟨w1, w2, w3⟩ := hwf e (by simp [he])
      have hne : e.name ≠ d.name := by
        have hnm : d.name ∉ rest.map Dimension.name := (List.nodup_cons.mp hnodup).1
        intro hcontra
        exact hnm (hcontra ▸ List.mem_map_of_mem Dimension.name he)
      refine ⟨w1, w2, ?_⟩
      simp [hne, w3]
    have hrestnodup : (rest.map Dimension.name).Nodup := by
      simp [List.nodup_cons] at hnodup
      exact hnodup.2
    have hrec := ih (seen ++ [d.name]) hrest hrestnodup
    simp only [List.map_cons, validateDimensionEntries, dimensionToJs]
    simp only [jsIsObject, getField, lookupField, if_pos, if_neg]
    simp [hv, hseen, htrim, hrec]

theorem validateMomentEntries_roundtrip :
    ∀ (ms : List MomentAnnotation),
      (∀ m ∈ ms, m.type ∈ VALID_ANNOTATION_TYPES ∧ jsTrimIsEmpty m.question = false ∧
        jsTrimIsEmpty m.quote = false ∧ jsTrimIsEmpty m.explanation = false) →
      validateMomentEntries (ms.map momentToJs) = .ok ms := by
  intro ms
  induction ms with
  | nil => intro _; simp [validateMomentEntries]
  | cons m rest ih =>
    intro hwf
    obtain ⟨h1, h2, h3, h4⟩ := hwf m (by simp)
    have hrec := ih (fun e he => hwf e (by simp [he]))
    simp only [List.map_cons, validateMomentEntries, momentToJs]
    simp [jsIsObject, getField, lookupField, h1, h2, h3, h4, hrec]

theorem validateScoringResponse_ok_spec :
    ∀ (parsed : JsValue) (res : ScoringResults),
      validateScoringResponse parsed = .ok res →
      ∃ (rawRating : ℚ) (dimEntries momentEntries : List JsValue),
        getField parsed ("eloRating") = .jNum (.finite rawRating) ∧
        100 ≤ rawRating ∧ rawRating ≤ 3000 ∧
        res.eloRating = jsRound rawRating ∧
        res.tier = deriveTierFromRating (jsRound rawRating) ∧
        res.verdict = (if HIRED_THRESHOLD ≤ jsRound rawRating then Verdict.HIRED else Verdict.NOT_HIRED) ∧
        getField parsed ("bossSummary") = .jStr res.bossSummary ∧
        jsTrimIsEmpty res.bossSummary = false ∧
        getField parsed ("dimensions") = .jArr dimEntries ∧
        validateDimensionEntries dimEntries [] = .ok (res.dimensions.map Dimension.name, res.dimensions) ∧
        (res.dimensions.map Dimension.name).length = VALID_DIMENSIONS.length ∧
        getField parsed ("moments") = .jArr momentEntries ∧
        validateMomentEntries momentEntries = .ok res.moments ∧
        res.isPartial = jsBoolOrFalse (getField parsed ("isPartial")) ∧
        res.note = jsOptionalNote (getField parsed ("note")) := by
  intro parsed res h
  unfold validateScoringResponse at h
  split at h
  case h_1 rawRating hraw =>
    split at h
    case isTrue => simp at h
    case isFalse hrange =>
      push_neg at hrange
      obtain ⟨hlo, hhi⟩ := hrange
      split at h
      case h_1 bossSummary hbs =>
        split at h
        case isTrue => simp at h
        case isFalse htrim =>
          split at h
          case h_1 dimEntries hdim =>
            split at h
            case h_1 e heq => simp at h
            case h_2 pair dimensionNames validatedDimensions heq =>
              split at h
              case isTrue => simp at h
              case isFalse hlen =>
                split at h
                case h_1 momentEntries hmom =>
                  split at h
                  case h_1 e heq2 => simp at h
                  case h_2 validatedMoments heq2 =>
                    simp only [Except.ok.injEq] at h
                    subst h
                    obtain ⟨hnames, _, _, _⟩ :=
                      validateDimensionEntries_ok_spec dimEntries [] dimensionNames validatedDimensions heq
                    simp only [List.nil_append] at hnames
                    subst hnames
                    refine ⟨rawRating, dimEntries, momentEntries, hraw, by linarith, by linarith,
                      rfl, rfl, rfl, hbs, by simpa using htrim, hdim, heq, ?_, hmom, heq2, rfl, rfl⟩
                    simpa using hlen
                case h_2 => simp at h
          case h_2 => simp at h
      case h_2 => simp at h
  case h_2 => simp at h

/-- C5: the validator is idempotent on canonical input: any result it
produced, re-read as a raw payload in the exact shape the route
serialises (`scoringResultsToJs`), validates successfully to the same
result. -/
theorem claim_C5_validator_idempotent (parsed : JsValue) (res : ScoringResults)
    (h : validateScoringResponse parsed = .ok res) :
    validateScoringResponse (scoringResultsToJs res) = .ok res := by
  obtain ⟨q, de, me, hraw, hlo, hhi, helo, htier, hverdict, hbs, htrim, hdims, hdimok,
    hlen, hmome, hmomok, hpart, hnote⟩ := validateScoringResponse_ok_spec parsed res h
  obtain ⟨hnames, hdimwf, hnodup, _⟩ :=
    validateDimensionEntries_ok_spec de [] (res.dimensions.map Dimension.name) res.dimensions hdimok
  obtain ⟨hmomwf, _⟩ := validateMomentEntries_ok_spec me res.moments hmomok
  have hlo2 : (100 : ℤ) ≤ res.eloRating := by
    rw [helo]; exact le_jsRound_of_le q 100 (by exact_mod_cast hlo)
  have hhi2 : res.eloRating ≤ (3000 : ℤ) := by
    rw [helo]; exact jsRound_le_of_le q 3000 (by exact_mod_cast hhi)
  have hrange : ¬(((res.eloRating : ℤ) : ℚ) < 100 ∨ (3000 : ℚ) < ((res.eloRating : ℤ) : ℚ)) := by
    rw [not_or]
    constructor
    · exact not_lt.mpr (by exact_mod_cast hlo2)
    · exact not_lt.mpr (by exact_mod_cast hhi2)
  have hdimwf2 : ∀ d ∈ res.dimensions,
      d.name ∈ VALID_DIMENSIONS ∧ jsTrimIsEmpty d.feedback = false ∧ d.name ∉ ([] : List String) := by
    intro d hd
    obtain ⟨w1, w2, _⟩ := hdimwf d hd
    exact ⟨w1, w2, by simp⟩
  have hnodup2 : (res.dimensions.map Dimension.name).Nodup := hnodup (by simp)
  have hdimrt := validateDimensionEntries_roundtrip res.dimensions [] hdimwf2 hnodup2
  have hmomrt := validateMomentEntries_roundtrip res.moments hmomwf
  have htier2 : deriveTierFromRating res.eloRating = res.tier := by rw [helo, htier]
  have hverdict2 :
      (if HIRED_THRESHOLD ≤ res.eloRating then Verdict.HIRED else Verdict.NOT_HIRED) = res.verdict := by
    rw [helo, hverdict]
  have hnotewf : ∀ n, res.note = some n → jsTrimIsEmpty n = false := by
    intro n hn2
    rw [hnote] at hn2
    unfold jsOptionalNote at hn2
    split at hn2
    case h_1 s =>
      split at hn2
      case isTrue => simp at hn2
      case isFalse hs =>
        simp only [Option.some.injEq] at hn2
        subst hn2
        simpa using hs
    case h_2 => simp at hn2
  cases hn : res.note with
  | none =>
    have g1 : getField (scoringResultsToJs res) ("eloRating")
        = JsValue.jNum (.finite ((res.eloRating : ℤ) : ℚ)) := by
      simp [scoringResultsToJs, hn, getField, lookupField]
    have g3 : getField (scoringResultsToJs res) ("bossSummary") = JsValue.jStr res.bossSummary := by
      simp [scoringResultsToJs, hn, getField, lookupField]
    have g4 : getField (scoringResultsToJs res) ("dimensions")
        = JsValue.jArr (res.dimensions.map dimensionToJs) := by
      simp [scoringResultsToJs, hn, getField, lookupField]
    have g5 : getField (scoringResultsToJs res) ("moments")
        = JsValue.jArr (res.moments.map momentToJs) := by
      simp [scoringResultsToJs, hn, getField, lookupField]
    have g6 : getField (scoringResultsToJs res) ("isPartial") = JsValue.jBool res.isPartial := by
      simp [scoringResultsToJs, hn, getField, lookupField]
    have g7 : getField (scoringResultsToJs res) ("note") = JsValue.jUndefined := by
      simp [scoringResultsToJs, hn, getField, lookupField]
    simp only [validateScoringResponse, g1, g3, g4, g5, g6, g7]
    rw [if_neg hrange]
    simp only [jsRound_intCast, htrim, Bool.false_eq_true, if_false, hdimrt, List.nil_append]
    rw [if_neg (by simp [hlen])]
    simp only [hmomrt, htier2, hverdict2, jsBoolOrFalse, jsOptionalNote, hn]
    rw [← hn]
  | some n =>
    have hntrim : jsTrimIsEmpty n = false := hnotewf n hn
    have g1 : getField (scoringResultsToJs res) ("eloRating")
        = JsValue.jNum (.finite ((res.eloRating : ℤ) : ℚ)) := by
      simp [scoringResultsToJs, hn, getField, lookupField]
    have g3 : getField (scoringResultsToJs res) ("bossSummary") = JsValue.jStr res.bossSummary := by
      simp [scoringResultsToJs, hn, getField, lookupField]
    have g4 : getField (scoringResultsToJs res) ("dimensions")
        = JsValue.jArr (res.dimensions.map dimensionToJs) := by
      simp [scoringResultsToJs, hn, getField, lookupField]
    have g5 : getField (scoringResultsToJs res) ("moments")
        = JsValue.jArr (res.moments.map momentToJs) := by
      simp [scoringResultsToJs, hn, getField, lookupField]
    have g6 : getField (scoringResultsToJs res) ("isPartial") = JsValue.jBool res.isPartial := by
      simp [scoringResultsToJs, hn, getField, lookupField]
    have g7 : getField (scoringResultsToJs res) ("note") = JsValue.jStr n := by
      simp [scoringResultsToJs, hn, getField, lookupField]
    simp only [validateScoringResponse, g1, g3, g4, g5, g6, g7]
    rw [if_neg hrange]
    simp only [jsRound_intCast, htrim, Bool.false_eq_true, if_false, hdimrt, List.nil_append]
    rw [if_neg (by simp [hlen])]
    simp only [hmomrt, htier2, hverdict2, jsBoolOrFalse, jsOptionalNote, hntrim,
      Bool.false_eq_true, if_false, hn]
    rw [← hn]

-- ─── C1, C2, C6 over the validator ──────────────────────────────────────────

/-- C1: for every accepted raw payload, the verdict is recomputed
solely from the rounded rating — HIRED iff the rounded rating is at
least 2200 (so 2199 gives NOT HIRED, 2200 gives HIRED) — and the
validator's output never depends on the raw `verdict` (or `tier`)
field at all: it reads only the six listed keys. -/
theorem claim_C1_verdict_self_healing :
    (∀ (parsed : JsValue) (res : ScoringResults),
      validateScoringResponse parsed = Except.ok res →
      ∃ rawRating : ℚ,
        getField parsed ("eloRating") = JsValue.jNum (.finite rawRating) ∧
        res.eloRating = jsRound rawRating ∧
        (res.verdict = Verdict.HIRED ↔ 2200 ≤ res.eloRating) ∧
        (res.verdict = Verdict.NOT_HIRED ↔ res.eloRating ≤ 2199)) ∧
    (∀ parsed₁ parsed₂ : JsValue,
      (∀ key ∈ ["eloRating", "bossSummary", "dimensions", "moments", "isPartial", "note"],
        getField parsed₁ key = getField parsed₂ key) →
      validateScoringResponse parsed₁ = validateScoringResponse parsed₂) := by
  constructor
  · intro parsed res h
    obtain ⟨q, de, me, hraw, hlo, hhi, helo, htier, hverdict, _⟩ :=
      validateScoringResponse_ok_spec parsed res h
    refine ⟨q, hraw, helo, ?_, ?_⟩
    · rw [hverdict, helo]
      by_cases hc : HIRED_THRESHOLD ≤ jsRound q
      · simp only [if_pos hc]
        simp only [HIRED_THRESHOLD] at hc
        constructor
        · intro _; omega
        · intro _; trivial
      · simp only [if_neg hc]
        simp only [HIRED_THRESHOLD] at hc
        constructor
        · intro hcontra; exact absurd hcontra (by simp)
        · intro hle; omega
    · rw [hverdict, helo]
      by_cases hc : HIRED_THRESHOLD ≤ jsRound q
      · simp only [if_pos hc]
        simp only [HIRED_THRESHOLD] at hc
        constructor
        · intro hcontra; exact absurd hcontra (by simp)
        · intro hle; omega
      · simp only [if_neg hc]
        simp only [HIRED_THRESHOLD] at hc
        constructor
        · intro _; omega
        · intro _; trivial
  · intro parsed₁ parsed₂ hkeys
    have e1 := hkeys ("eloRating") (by simp)
    have e2 := hkeys ("bossSummary") (by simp)
    have e3 := hkeys ("dimensions") (by simp)
    have e4 := hkeys ("moments") (by simp)
    have e5 := hkeys ("isPartial") (by simp)
    have e6 := hkeys ("note") (by simp)
    unfold validateScoringResponse
    rw [e1, e2, e3, e4, e5, e6]

/-- A rating 2199 payload (same fixed fields as `samplePayload`). -/
def payload2199 : JsValue :=
  .jObj [("eloRating", .jNum (.finite 2199)),
         ("tier", .jStr "Hired Material"),
         ("verdict", .jStr "HIRED"),
         ("bossSummary", .jStr "You surprised me."),
         ("dimensions", .jArr sampleDims),
         ("moments", .jArr sampleMoments),
         ("isPartial", .jBool false)]

/-- A rating 2200 payload with a raw verdict outside the valid set. -/
def payload2200 : JsValue :=
  .jObj [("eloRating", .jNum (.finite 2200)),
         ("tier", .jStr "Impressive"),
         ("verdict", .jStr "MAYBE"),
         ("bossSummary", .jStr "You surprised me."),
         ("dimensions", .jArr sampleDims),
         ("moments", .jArr sampleMoments),
         ("isPartial", .jBool false)]

/-- The validated result for `payload2199`. -/
def result2199 : ScoringResults :=
  { sampleResult with eloRating := 2199, tier := .impressive, verdict := .NOT_HIRED }

/-- The validated result for `payload2200`. -/
def result2200 : ScoringResults :=
  { sampleResult with eloRating := 2200, tier := .hiredMaterial, verdict := .HIRED }

theorem claim_C1_witness :
    (∃ rawRating : ℚ,
      getField payload2199 ("eloRating") = JsValue.jNum (.finite rawRating) ∧
      result2199.eloRating = jsRound rawRating ∧
      (result2199.verdict = Verdict.HIRED ↔ 2200 ≤ result2199.eloRating) ∧
      (result2199.verdict = Verdict.NOT_HIRED ↔ result2199.eloRating ≤ 2199)) ∧
    (∃ rawRating : ℚ,
      getField payload2200 ("eloRating") = JsValue.jNum (.finite rawRating) ∧
      result2200.eloRating = jsRound rawRating ∧
      (result2200.verdict = Verdict.HIRED ↔ 2200 ≤ result2200.eloRating) ∧
      (result2200.verdict = Verdict.NOT_HIRED ↔ result2200.eloRating ≤ 2199)) :=
  ⟨claim_C1_verdict_self_healing.1 payload2199 result2199 (by decide),
   claim_C1_verdict_self_healing.1 payload2200 result2200 (by decide)⟩

/-- C2: the six tier bands partition [100, 3000] — every integer rating
in range lies in exactly one band and `deriveTierFromRating` returns
that band's name — and every accepted payload's tier is recomputed from
the rounded raw rating via this table (never taken from the raw
payload's `tier` field, on which the validator does not depend; see
also the key-independence half of C1). -/
theorem claim_C2_tier_partition :
    (∀ r : ℤ, 100 ≤ r → r ≤ 3000 →
      ∃ t, t ∈ ELO_TIERS ∧ (t.min ≤ r ∧ r ≤ t.max) ∧ deriveTierFromRating r = t.name ∧
        ∀ u ∈ ELO_TIERS, u.min ≤ r → r ≤ u.max → u = t) ∧
    (∀ (parsed : JsValue) (res : ScoringResults),
      validateScoringResponse parsed = Except.ok res →
      ∃ rawRating : ℚ,
        getField parsed ("eloRating") = JsValue.jNum (.finite rawRating) ∧
        res.eloRating = jsRound rawRating ∧
        res.tier = deriveTierFromRating (jsRound rawRating)) := by
  constructor
  · intro r h1 h2
    by_cases c1 : r ≤ 599
    · refine ⟨⟨.wastingMyTime, 100, 599, "var(--color-error)"⟩, by simp [ELO_TIERS],
        ⟨by simp; omega, by simp; omega⟩, ?_, ?_⟩
      · rw [deriveTierFromRating_eq, if_pos c1]
      · intro u hu hmin hmax
        fin_cases hu <;> simp_all <;> omega
    · by_cases c2 : r ≤ 999
      · refine ⟨⟨.showsAPulse, 600, 999, "var(--color-warning-strong)"⟩, by simp [ELO_TIERS],
          ⟨by simp; omega, by simp; omega⟩, ?_, ?_⟩
        · rw [deriveTierFromRating_eq, if_neg c1, if_pos c2]
        · intro u hu hmin hmax
          fin_cases hu <;> simp_all <;> omega
      · by_cases c3 : r ≤ 1399
        · refine ⟨⟨.adequate, 1000, 1399, "var(--color-warning)"⟩, by simp [ELO_TIERS],
            ⟨by simp; omega, by simp; omega⟩, ?_, ?_⟩
          · rw [deriveTierFromRating_eq, if_neg c1, if_neg c2, if_pos c3]
          · intro u hu hmin hmax
            fin_cases hu <;> simp_all <;> omega
        · by_cases c4 : r ≤ 1799
          · refine ⟨⟨.noteworthy, 1400, 1799, "var(--color-success)"⟩, by simp [ELO_TIERS],
              ⟨by simp; omega, by simp; omega⟩, ?_, ?_⟩
            · rw [deriveTierFromRating_eq, if_neg c1, if_neg c2, if_neg c3, if_pos c4]
            · intro u hu hmin hmax
              fin_cases hu <;> simp_all <;> omega
          · by_cases c5 : r ≤ 2199
            · refine ⟨⟨.impressive, 1800, 2199, "var(--color-accent)"⟩, by simp [ELO_TIERS],
                ⟨by simp; omega, by simp; omega⟩, ?_, ?_⟩
              · rw [deriveTierFromRating_eq, if_neg c1, if_neg c2, if_neg c3, if_neg c4, if_pos c5]
              · intro u hu hmin hmax
                fin_cases hu <;> (simp_all; try omega)
            · refine ⟨⟨.hiredMaterial, 2200, 3000, "var(--color-elite)"⟩, by simp [ELO_TIERS],
                ⟨by simp; omega, by simp; omega⟩, ?_, ?_⟩
              · rw [deriveTierFromRating_eq, if_neg c1, if_neg c2, if_neg c3, if_neg c4, if_neg c5]
              · intro u hu hmin hmax
                fin_cases hu <;> simp_all
  · intro parsed res h
    obtain ⟨q, de, me, hraw, hlo, hhi, helo, htier, _⟩ :=
      validateScoringResponse_ok_spec parsed res h
    exact ⟨q, hraw, helo, htier⟩

theorem claim_C2_witness :
    (∃ t, t ∈ ELO_TIERS ∧ (t.min ≤ (1450 : ℤ) ∧ (1450 : ℤ) ≤ t.max) ∧
      deriveTierFromRating 1450 = t.name ∧
      ∀ u ∈ ELO_TIERS, u.min ≤ (1450 : ℤ) → (1450 : ℤ) ≤ u.max → u = t) ∧
    (∃ rawRating : ℚ,
      getField samplePayload ("eloRating") = JsValue.jNum (.finite rawRating) ∧
      sampleResult.eloRating = jsRound rawRating ∧
      sampleResult.tier = deriveTierFromRating (jsRound rawRating)) :=
  ⟨claim_C2_tier_partition.1 1450 (by decide) (by decide),
   claim_C2_tier_partition.2 samplePayload sampleResult (by decide)⟩

theorem claim_C5_witness :
    validateScoringResponse (scoringResultsToJs sampleResult) = .ok sampleResult :=
  claim_C5_validator_idempotent samplePayload sampleResult (by decide)

/-- C6: every accepted payload has a `dimensions` field that is a
non-empty array of exactly 5 well-formed entries — names drawn from the
fixed 5-key set without duplicates and covering all 5 keys, finite
scores, feedback non-empty after trimming.  (Contrapositive: a payload
whose `dimensions` field violates any of the listed conditions is
rejected with a validation error.) -/
theorem claim_C6_dimensions_exactly_five :
    ∀ (parsed : JsValue) (res : ScoringResults),
      validateScoringResponse parsed = Except.ok res →
      ∃ entries : List JsValue,
        getField parsed ("dimensions") = JsValue.jArr entries ∧
        entries ≠ [] ∧
        entries.length = 5 ∧
        res.dimensions.length = 5 ∧
        List.Forall₂ DimEntryMatches entries res.dimensions ∧
        (∀ d ∈ res.dimensions, d.name ∈ VALID_DIMENSIONS ∧ jsTrimIsEmpty d.feedback = false) ∧
        (res.dimensions.map Dimension.name).Nodup ∧
        (∀ key ∈ VALID_DIMENSIONS, key ∈ res.dimensions.map Dimension.name) := by
  intro parsed res h
  obtain ⟨q, de, me, hraw, hlo, hhi, helo, htier, hverdict, hbs, htrim, hdims, hdimok,
    hlen, _⟩ := validateScoringResponse_ok_spec parsed res h
  obtain ⟨hnames, hdimwf, hnodup, hmatch⟩ :=
    validateDimensionEntries_ok_spec de [] (res.dimensions.map Dimension.name) res.dimensions hdimok
  have hnodup2 : (res.dimensions.map Dimension.name).Nodup := hnodup (by simp)
  have hlen5 : (res.dimensions.map Dimension.name).length = 5 := by simpa [VALID_DIMENSIONS] using hlen
  have hdlen : res.dimensions.length = 5 := by simpa using hlen5
  have helen : de.length = 5 := by rw [hmatch.length_eq]; exact hdlen
  have hsubset : (res.dimensions.map Dimension.name) ⊆ VALID_DIMENSIONS := by
    intro x hx
    obtain ⟨d, hd, hdx⟩ := List.mem_map.mp hx
    exact hdx ▸ (hdimwf d hd).1
  have hperm : (res.dimensions.map Dimension.name).Perm VALID_DIMENSIONS := by
    apply List.Subperm.perm_of_length_le (List.Nodup.subperm hnodup2 hsubset)
    simp [VALID_DIMENSIONS, hlen5]
  refine ⟨de, hdims, ?_, helen, hdlen, hmatch, ?_, hnodup2, ?_⟩
  · intro hcontra
    rw [hcontra] at helen
    simp at helen
  · intro d hd
    exact ⟨(hdimwf d hd).1, (hdimwf d hd).2.1⟩
  · intro key hkey
    exact hperm.symm.subset hkey

theorem claim_C6_witness :
    ∃ entries : List JsValue,
      getField samplePayload ("dimensions") = JsValue.jArr entries ∧
      entries ≠ [] ∧
      entries.length = 5 ∧
      sampleResult.dimensions.length = 5 ∧
      List.Forall₂ DimEntryMatches entries sampleResult.dimensions ∧
      (∀ d ∈ sampleResult.dimensions,
        d.name ∈ VALID_DIMENSIONS ∧ jsTrimIsEmpty d.feedback = false) ∧
      (sampleResult.dimensions.map Dimension.name).Nodup ∧
      (∀ key ∈ VALID_DIMENSIONS, key ∈ sampleResult.dimensions.map Dimension.name) :=
  claim_C6_dimensions_exactly_five samplePayload sampleResult (by decide)

-- ─── Rate limiter lemmas (C4, C9) ───────────────────────────────────────────

theorem lookupStore_setStore_self (store : List (String × List ℤ)) (key : String) (v : List ℤ) :
    lookupStore (setStore store key v) key = some v := by
  induction store with
  | nil => simp [setStore, lookupStore]
  | cons kv rest ih =>
    obtain ⟨k, w⟩ := kv
    by_cases hk : k = key
    · simp [setStore, lookupStore, hk]
    · simp [setStore, lookupStore, hk, ih]

/-- Full characterization of one `rateLimit` call: admission is decided
by comparing the pruned list's length with `maxRequests`; the key's
stored list becomes the pruned list, extended by `now` exactly when the
call is admitted; the call counter advances; a denied call reports 0
remaining. -/
theorem rateLimit_run (st : RateLimitState) (identifier : String) (maxRequests : ℕ)
    (windowMs : ℤ) (ns : String) (now : ℤ) :
    ((rateLimit st identifier maxRequests windowMs ns now).1.1 = true ↔
      (pruneTimestamps now windowMs
        ((lookupStore st.store (ns ++ ":" ++ identifier)).getD [])).length < maxRequests) ∧
    (rateLimit st identifier maxRequests windowMs ns now).2.callCount = st.callCount + 1 ∧
    lookupStore (rateLimit st identifier maxRequests windowMs ns now).2.store
        (ns ++ ":" ++ identifier) =
      some (if (pruneTimestamps now windowMs
              ((lookupStore st.store (ns ++ ":" ++ identifier)).getD [])).length < maxRequests
            then pruneTimestamps now windowMs
              ((lookupStore st.store (ns ++ ":" ++ identifier)).getD []) ++ [now]
            else pruneTimestamps now windowMs
              ((lookupStore st.store (ns ++ ":" ++ identifier)).getD [])) ∧
    ((rateLimit st identifier maxRequests windowMs ns now).1.1 = false →
      (rateLimit st identifier maxRequests windowMs ns now).1.2 = 0) := by
  simp only [rateLimit]
  by_cases hc : maxRequests ≤
      (pruneTimestamps now windowMs
        ((lookupStore st.store (ns ++ ":" ++ identifier)).getD [])).length
  · rw [if_pos hc]
    refine ⟨iff_of_false (by simp) (by omega), rfl, ?_, fun _ => rfl⟩
    rw [if_neg (show ¬((pruneTimestamps now windowMs
      ((lookupStore st.store (ns ++ ":" ++ identifier)).getD [])).length < maxRequests) by omega)]
    exact lookupStore_setStore_self ..
  · rw [if_neg hc]
    refine ⟨iff_of_true rfl (by omega), rfl, ?_, by intro h; simp at h⟩
    rw [if_pos (show (pruneTimestamps now windowMs
      ((lookupStore st.store (ns ++ ":" ++ identifier)).getD [])).length < maxRequests by omega)]
    exact lookupStore_setStore_self ..

theorem pruneTimestamps_replicate_now (now w : ℤ) (hw : 0 < w) (j : ℕ) :
    pruneTimestamps now w (List.replicate j now) = List.replicate j now := by
  unfold pruneTimestamps
  induction j with
  | zero => simp
  | succ n ih =>
    simp only [List.replicate_succ, List.filter_cons]
    rw [if_pos (by simp; omega)]
    rw [ih]

theorem burstCalls_exhausts_budget :
    ∀ (m : ℕ) (st : RateLimitState) (identifier : String) (N : ℕ) (w : ℤ) (ns : String)
      (now : ℤ) (j : ℕ),
      lookupStore st.store (ns ++ ":" ++ identifier) = some (List.replicate j now) ∨
        (j = 0 ∧ lookupStore st.store (ns ++ ":" ++ identifier) = none) →
      j + m = N + 1 → 0 < w → 1 ≤ m →
      (burstCalls st identifier N w ns now m).1 = List.replicate (m - 1) true ++ [false] := by
  intro m
  induction m with
  | zero => intro _ _ _ _ _ _ _ _ _ _ hm; omega
  | succ m ih =>
    intro st identifier N w ns now j hlook hj hw _
    have hpruned : pruneTimestamps now w
        ((lookupStore st.store (ns ++ ":" ++ identifier)).getD []) = List.replicate j now := by
      rcases hlook with hsome | ⟨hj0, hnone⟩
      · rw [hsome]
        exact pruneTimestamps_replicate_now now w hw j
      · rw [hnone, hj0]
        simp [pruneTimestamps]
    obtain ⟨hiff, _, hstore, _⟩ := rateLimit_run st identifier N w ns now
    rw [hpruned] at hiff hstore
    simp only [List.length_replicate] at hiff hstore
    rcases Nat.lt_or_ge m 1 with hm0 | hm1
    · -- m = 0: this is the last call, j = N, denied
      have hm : m = 0 := by omega
      subst hm
      have hdenied : (rateLimit st identifier N w ns now).1.1 = false := by
        rcases hb : (rateLimit st identifier N w ns now).1.1 with _ | _
        · rfl
        · have := hiff.mp hb
          omega
      simp [burstCalls, hdenied]
    · -- m ≥ 1: this call is admitted, recurse
      have hjlt : j < N := by omega
      have hallowed : (rateLimit st identifier N w ns now).1.1 = true := hiff.mpr hjlt
      rw [if_pos hjlt] at hstore
      have hnext := ih (rateLimit st identifier N w ns now).2 identifier N w ns now (j + 1)
        (Or.inl (by rw [hstore]; rw [← List.replicate_succ']))
        (by omega) hw hm1
      simp only [burstCalls, hallowed, hnext]
      rw [show m + 1 - 1 = (m - 1) + 1 by omega, List.replicate_succ]
      simp

/-- C4: (i) an admission call succeeds iff fewer than `maxRequests`
unexpired timestamps remain after pruning, and an admitted call records
exactly one new timestamp; (ii) a burst of N+1 calls on a fresh key at
one instant (trivially within one window) admits exactly the first N
and denies exactly the last; (iii) once the whole window has elapsed
past every recorded timestamp, an admission call on the key succeeds
again. -/
theorem claim_C4_sliding_window :
    (∀ (st : RateLimitState) (identifier : String) (maxRequests : ℕ) (windowMs : ℤ)
        (ns : String) (now : ℤ),
      ((rateLimit st identifier maxRequests windowMs ns now).1.1 = true ↔
        (pruneTimestamps now windowMs
          ((lookupStore st.store (ns ++ ":" ++ identifier)).getD [])).length < maxRequests) ∧
      ((rateLimit st identifier maxRequests windowMs ns now).1.1 = true →
        lookupStore (rateLimit st identifier maxRequests windowMs ns now).2.store
            (ns ++ ":" ++ identifier) =
          some (pruneTimestamps now windowMs
            ((lookupStore st.store (ns ++ ":" ++ identifier)).getD []) ++ [now]))) ∧
    (∀ (st : RateLimitState) (identifier : String) (N : ℕ) (windowMs : ℤ) (ns : String)
        (now : ℤ),
      lookupStore st.store (ns ++ ":" ++ identifier) = none → 0 < windowMs →
      (burstCalls st identifier N windowMs ns now (N + 1)).1 =
        List.replicate N true ++ [false]) ∧
    (∀ (st : RateLimitState) (identifier : String) (N : ℕ) (windowMs : ℤ) (ns : String)
        (now : ℤ) (ts : List ℤ),
      lookupStore st.store (ns ++ ":" ++ identifier) = some ts →
      (∀ t ∈ ts, windowMs ≤ now - t) → 0 < N →
      (rateLimit st identifier N windowMs ns now).1.1 = true) := by
  refine ⟨?_, ?_, ?_⟩
  · intro st identifier maxRequests windowMs ns now
    obtain ⟨hiff, _, hstore, _⟩ := rateLimit_run st identifier maxRequests windowMs ns now
    refine ⟨hiff, ?_⟩
    intro hadm
    rw [if_pos (hiff.mp hadm)] at hstore
    exact hstore
  · intro st identifier N windowMs ns now hnone hw
    have := burstCalls_exhausts_budget (N + 1) st identifier N windowMs ns now 0
      (Or.inr ⟨rfl, hnone⟩) (by omega) hw (by omega)
    simpa using this
  · intro st identifier N windowMs ns now ts hts hold hN
    obtain ⟨hiff, _, _, _⟩ := rateLimit_run st identifier N windowMs ns now
    apply hiff.mpr
    have hempty : pruneTimestamps now windowMs
        ((lookupStore st.store (ns ++ ":" ++ identifier)).getD []) = [] := by
      rw [hts]
      simp only [Option.getD_some, pruneTimestamps]
      apply List.filter_eq_nil_iff.mpr
      intro t ht
      have := hold t ht
      simp
      omega
    rw [hempty]
    simpa using hN

theorem claim_C4_witness :
    (burstCalls ⟨[], 0⟩ ("1.2.3.4") 2 60000 ("score-interview") 1000 3).1 =
      List.replicate 2 true ++ [false] ∧
    (rateLimit ⟨[("conversations:1.2.3.4", [100])], 5⟩ ("1.2.3.4") 200 60000
      ("conversations") 70000).1.1 = true :=
  ⟨claim_C4_sliding_window.2.1 ⟨[], 0⟩ ("1.2.3.4") 2 60000 ("score-interview") 1000
      (by decide) (by decide),
   claim_C4_sliding_window.2.2 ⟨[("conversations:1.2.3.4", [100])], 5⟩ ("1.2.3.4") 200 60000
      ("conversations") 70000 [100] (by decide) (by decide) (by decide)⟩

/-- C9: a denied admission never consumes budget: when `rateLimit`
returns `success = false`, the key's stored list becomes exactly the
pruned list of previously admitted timestamps (no new timestamp is
recorded), the call counter still advances, and 0 remaining is
reported. -/
theorem claim_C9_denied_admission_consumes_no_budget :
    ∀ (st : RateLimitState) (identifier : String) (maxRequests : ℕ) (windowMs : ℤ)
      (ns : String) (now : ℤ) (remaining : ℕ) (st2 : RateLimitState),
      rateLimit st identifier maxRequests windowMs ns now = ((false, remaining), st2) →
      lookupStore st2.store (ns ++ ":" ++ identifier) =
        some (pruneTimestamps now windowMs
          ((lookupStore st.store (ns ++ ":" ++ identifier)).getD [])) ∧
      st2.callCount = st.callCount + 1 ∧
      remaining = 0 := by
  intro st identifier maxRequests windowMs ns now remaining st2 h
  obtain ⟨hiff, hcount, hstore, hrem⟩ := rateLimit_run st identifier maxRequests windowMs ns now
  rw [h] at hiff hcount hstore hrem
  have hnot : ¬((pruneTimestamps now windowMs
      ((lookupStore st.store (ns ++ ":" ++ identifier)).getD [])).length < maxRequests) :=
    fun hc => absurd (hiff.mpr hc) (by simp)
  rw [if_neg hnot] at hstore
  exact ⟨hstore, hcount, hrem (by simp)⟩

theorem claim_C9_witness :
    lookupStore (⟨[("score-interview:9.9.9.9", [500])], 1⟩ : RateLimitState).store
        ("score-interview:9.9.9.9") =
      some (pruneTimestamps 600 60000 ((lookupStore [("score-interview:9.9.9.9", [500])]
        ("score-interview:9.9.9.9")).getD [])) ∧
    (⟨[("score-interview:9.9.9.9", [500])], 1⟩ : RateLimitState).callCount = 0 + 1 ∧
    (0 : ℕ) = 0 :=
  claim_C9_denied_admission_consumes_no_budget ⟨[("score-interview:9.9.9.9", [500])], 0⟩
    ("9.9.9.9") 1 60000 ("score-interview") 600 0
    ⟨[("score-interview:9.9.9.9", [500])], 1⟩ (by decide)

-- ─── Transcript retriever lemmas (C3) ───────────────────────────────────────

/-- One-step unfolding of the polling loop on a 202 response. -/
theorem fetchGo_202 (poll : ℕ → PollResponse) (attempt fuel : ℕ)
    (h : poll attempt = .status202) :
    fetchGo poll attempt (fuel + 1) =
      ⟨if attempt < MAX_ATTEMPTS - 1 then
          backoffDelay attempt :: (fetchGo poll (attempt + 1) fuel).delays
        else (fetchGo poll (attempt + 1) fuel).delays,
        (fetchGo poll (attempt + 1) fuel).attempts + 1,
        (fetchGo poll (attempt + 1) fuel).outcome⟩ := by
  simp only [fetchGo, h]

theorem backoffDelay_range_shift (attempt j : ℕ) :
    backoffDelay attempt :: (List.range j).map (fun i => backoffDelay (attempt + 1 + i)) =
      (List.range (j + 1)).map (fun i => backoffDelay (attempt + i)) := by
  rw [List.range_succ_eq_map, List.map_cons, List.map_map]
  congr 1
  apply List.map_congr_left
  intro i _
  simp only [Function.comp]
  congr 1
  omega

theorem fetchGo_ready (poll : ℕ → PollResponse) (tr : List TranscriptEntry) :
    ∀ (j fuel attempt : ℕ),
      attempt + fuel = MAX_ATTEMPTS → j < fuel →
      (∀ i, i < j → poll (attempt + i) = .status202) →
      poll (attempt + j) = .status200 (some tr) →
      fetchGo poll attempt fuel =
        ⟨(List.range j).map (fun i => backoffDelay (attempt + i)), j + 1, .ok tr⟩ := by
  intro j
  induction j with
  | zero =>
    intro fuel attempt hsum hlt h202 hready
    obtain ⟨f, rfl⟩ : ∃ f, fuel = f + 1 := ⟨fuel - 1, by omega⟩
    rw [show attempt + 0 = attempt from rfl] at hready
    simp only [fetchGo, hready]
    simp
  | succ j ih =>
    intro fuel attempt hsum hlt h202 hready
    obtain ⟨f, rfl⟩ : ∃ f, fuel = f + 1 := ⟨fuel - 1, by omega⟩
    have h0 : poll attempt = .status202 := by
      have := h202 0 (by omega)
      simpa using this
    have hrec := ih f (attempt + 1) (by omega) (by omega)
      (fun i hi => by
        have := h202 (i + 1) (by omega)
        rw [show attempt + (i + 1) = attempt + 1 + i by omega] at this
        exact this)
      (by rw [show attempt + 1 + j = attempt + (j + 1) by omega]; exact hready)
    have hlt2 : attempt < MAX_ATTEMPTS - 1 := by
      simp only [MAX_ATTEMPTS] at hsum ⊢
      omega
    rw [fetchGo_202 poll attempt f h0, hrec, if_pos hlt2]
    simp [FetchTrace.mk.injEq, backoffDelay_range_shift]

theorem fetchGo_never (poll : ℕ → PollResponse) (h202 : ∀ i, poll i = .status202) :
    ∀ (fuel attempt : ℕ), attempt + (fuel + 1) = MAX_ATTEMPTS →
      fetchGo poll attempt (fuel + 1) =
        ⟨(List.range fuel).map (fun i => backoffDelay (attempt + i)), fuel + 1,
          .error notReadyMessage⟩ := by
  intro fuel
  induction fuel with
  | zero =>
    intro attempt hsum
    have hlast : ¬(attempt < MAX_ATTEMPTS - 1) := by
      simp only [MAX_ATTEMPTS] at hsum ⊢
      omega
    rw [fetchGo_202 poll attempt 0 (h202 attempt), if_neg hlast]
    simp [fetchGo]
  | succ f ih =>
    intro attempt hsum
    have hlt2 : attempt < MAX_ATTEMPTS - 1 := by
      simp only [MAX_ATTEMPTS] at hsum ⊢
      omega
    rw [fetchGo_202 poll attempt (f + 1) (h202 attempt), ih (attempt + 1) (by omega),
      if_pos hlt2]
    simp [FetchTrace.mk.injEq, backoffDelay_range_shift]

/-- C3: (i) the delay slept after the 0-indexed not-ready attempt `k`
(equivalently, before attempt `k+1`) follows the schedule
`3000 · 1.5^k` ms; (ii) a source that is not ready for the first `k`
polls and then ready makes the retriever return the transcript after
exactly `k+1` attempts, with one recorded delay per not-ready attempt
(`3000·1.5^0, …, 3000·1.5^(k-1)`) and in particular no delay before
the first attempt; (iii) a source that is never ready makes it fail
after the fixed cap of `MAX_ATTEMPTS = 5` attempts with the distinct
"transcript not yet available" message, which (iv) differs from the
network-error message, the bad-body message and every hard upstream
error's default message. -/
theorem claim_C3_transcript_retriever :
    (∀ k : ℕ, backoffDelay k = 3000 * (3 / 2 : ℚ) ^ k) ∧
    (∀ (k : ℕ) (tr : List TranscriptEntry) (poll : ℕ → PollResponse),
      k < MAX_ATTEMPTS →
      (∀ i, i < k → poll i = .status202) →
      poll k = .status200 (some tr) →
      fetchTranscript poll = ⟨(List.range k).map backoffDelay, k + 1, .ok tr⟩) ∧
    (∀ poll : ℕ → PollResponse, (∀ i, poll i = .status202) →
      fetchTranscript poll =
        ⟨(List.range (MAX_ATTEMPTS - 1)).map backoffDelay, MAX_ATTEMPTS,
          .error notReadyMessage⟩) ∧
    (notReadyMessage ≠ networkErrorMessage ∧ notReadyMessage ≠ badResponseMessage ∧
      ∀ status : ℕ, notReadyMessage ≠ upstreamDefaultMessage status) := by
  refine ⟨fun k => rfl, ?_, ?_, ?_, ?_, ?_⟩
  · intro k tr poll hk h202 hready
    have := fetchGo_ready poll tr k MAX_ATTEMPTS 0 (by omega) hk
      (fun i hi => by simpa using h202 i hi) (by simpa using hready)
    simpa using this
  · intro poll h202
    have := fetchGo_never poll h202 (MAX_ATTEMPTS - 1) 0 (by simp [MAX_ATTEMPTS])
    simp only [MAX_ATTEMPTS] at this ⊢
    simpa using this
  · intro h
    have := congrArg (fun s => s.data.head?) h
    simp [notReadyMessage, networkErrorMessage] at this
  · intro h
    have := congrArg (fun s => s.data.head?) h
    simp [notReadyMessage, badResponseMessage] at this
  · intro status h
    have := congrArg (fun s => s.data.head?) h
    simp only [notReadyMessage, upstreamDefaultMessage, String.data_append] at this
    simp at this

/-- A mock poll source: not ready twice, then ready with one entry. -/
def samplePoll : ℕ → PollResponse := fun i =>
  if i < 2 then .status202
  else .status200 (some [⟨"agent", "Welcome.", none⟩])

theorem claim_C3_witness :
    fetchTranscript samplePoll =
      ⟨(List.range 2).map backoffDelay, 2 + 1, .ok [⟨"agent", "Welcome.", none⟩]⟩ ∧
    fetchTranscript (fun _ => .status202) =
      ⟨(List.range (MAX_ATTEMPTS - 1)).map backoffDelay, MAX_ATTEMPTS,
        .error notReadyMessage⟩ :=
  ⟨claim_C3_transcript_retriever.2.1 2 [⟨"agent", "Welcome.", none⟩] samplePoll (by decide)
      (fun i hi => by
        have h2 : i < 2 := hi
        simp [samplePoll, h2])
      (by simp [samplePoll]),
   claim_C3_transcript_retriever.2.2.1 (fun _ => .status202) (fun i => rfl)⟩

-- ─── Scoring route local phase (C8) ─────────────────────────────────────────

/-- The action the scoring route takes after its local input checks:
either a local rejection with an HTTP status and message, or a call to
the external scoring collaborator with the built user content. -/
inductive PostAction
  | reject (status : ℕ) (errorMsg : String)
  | callModel (userContent : String)
deriving DecidableEq, Repr

/-- Step 4 of the route handler: build the user message parts —
optional CV section (only when the CV text is truthy and non-empty
after trimming), transcript section, trailing instruction — joined by
blank lines. -/
def buildUserContent (cvText : Option String) (transcript : String) : String :=
  String.intercalate "\n\n"
    ((match cvText with
      | some c =>
        if c.isEmpty ∨ jsTrimIsEmpty c then [] else ["=== CANDIDATE CV ===\n" ++ c]
      | none => []) ++
     ["=== INTERVIEW TRANSCRIPT ===\n" ++ transcript] ++
     ["\nPlease analyse this interview transcript (and CV if provided) and produce the scoring assessment. Return only the JSON object as specified in your instructions."])

/-- Steps 2 and 4 of the `POST` handler of
`src/app/api/score-interview/route.ts`: the local input validation
(transcript required, size bounds, CV type and size bound) and the
message build, everything the route does between the rate limiter and
the external call.  The rate-limit gate (step 1, modelled by
`rateLimit`) and the API-key environment check (step 3, pure
configuration I/O) sit upstream of this function. -/
def scoreInterviewLocalPhase (body : JsValue) : PostAction :=
  match getField body ("transcript") with
  | .jStr transcript =>
    if transcript.isEmpty ∨ jsTrimIsEmpty transcript then
      .reject 400 ("Interview transcript is required")
    else if MAX_TRANSCRIPT_LENGTH < transcript.length then
      .reject 400 ("Transcript exceeds maximum length")
    else
      match getField body ("cvText") with
      | .jUndefined => .callModel (buildUserContent none transcript)
      | .jNull => .callModel (buildUserContent none transcript)
      | .jStr cvText =>
        if MAX_CV_TEXT_LENGTH < cvText.length then
          .reject 400 ("CV text exceeds maximum length")
        else .callModel (buildUserContent (some cvText) transcript)
      | _ => .reject 400 ("CV text must be a string")
  | _ => .reject 400 ("Interview transcript is required")

/-- C8: an over-long transcript (> 200,000 chars) is rejected locally
with a 400 before the scoring collaborator is called, whatever the rest
of the body holds; with a valid transcript, a present CV text longer
than 100,000 chars is likewise rejected locally with a 400; inputs at
or below the limits (in particular exactly at them) proceed to the
external call. -/
theorem claim_C8_size_bounds_fail_fast :
    (∀ (body : JsValue) (transcript : String),
      getField body ("transcript") = JsValue.jStr transcript →
      MAX_TRANSCRIPT_LENGTH < transcript.length →
      ∃ msg, scoreInterviewLocalPhase body = .reject 400 msg) ∧
    (∀ (body : JsValue) (transcript cvText : String),
      getField body ("transcript") = JsValue.jStr transcript →
      transcript.isEmpty = false → jsTrimIsEmpty transcript = false →
      transcript.length ≤ MAX_TRANSCRIPT_LENGTH →
      getField body ("cvText") = JsValue.jStr cvText →
      MAX_CV_TEXT_LENGTH < cvText.length →
      scoreInterviewLocalPhase body = .reject 400 ("CV text exceeds maximum length")) ∧
    (∀ (body : JsValue) (transcript : String),
      getField body ("transcript") = JsValue.jStr transcript →
      transcript.isEmpty = false → jsTrimIsEmpty transcript = false →
      transcript.length ≤ MAX_TRANSCRIPT_LENGTH →
      ((getField body ("cvText") = JsValue.jUndefined ∨ getField body ("cvText") = JsValue.jNull) →
        scoreInterviewLocalPhase body = .callModel (buildUserContent none transcript)) ∧
      (∀ cvText : String,
        getField body ("cvText") = JsValue.jStr cvText →
        cvText.length ≤ MAX_CV_TEXT_LENGTH →
        scoreInterviewLocalPhase body = .callModel (buildUserContent (some cvText) transcript))) := by
  refine ⟨?_, ?_, ?_⟩
  · intro body transcript ht hlen
    by_cases hreq : transcript.isEmpty ∨ jsTrimIsEmpty transcript
    · exact ⟨"Interview transcript is required", by
        simp only [scoreInterviewLocalPhase, ht, if_pos hreq]⟩
    · exact ⟨"Transcript exceeds maximum length", by
        simp only [scoreInterviewLocalPhase, ht, if_neg hreq, if_pos hlen]⟩
  · intro body transcript cvText ht he htr hlen hcv hcvlen
    have hreq : ¬(transcript.isEmpty ∨ jsTrimIsEmpty transcript) := by simp [he, htr]
    simp only [scoreInterviewLocalPhase, ht, if_neg hreq, if_neg (not_lt.mpr hlen), hcv,
      if_pos hcvlen]
  · intro body transcript ht he htr hlen
    have hreq : ¬(transcript.isEmpty ∨ jsTrimIsEmpty transcript) := by simp [he, htr]
    constructor
    · intro hcv
      rcases hcv with hcv | hcv <;>
        simp only [scoreInterviewLocalPhase, ht, if_neg hreq, if_neg (not_lt.mpr hlen), hcv]
    · intro cvText hcv hcvlen
      simp only [scoreInterviewLocalPhase, ht, if_neg hreq, if_neg (not_lt.mpr hlen), hcv,
        if_neg (not_lt.mpr hcvlen)]

/-- A transcript of exactly 200,001 characters. -/
def oversizedTranscript : String := String.mk (List.replicate 200001 'a')

/-- A CV text of exactly 100,001 characters. -/
def oversizedCv : String := String.mk (List.replicate 100001 'b')

theorem oversizedTranscript_length : oversizedTranscript.length = 200001 := by
  show (List.replicate 200001 'a').length = 200001
  rw [List.length_replicate]

theorem oversizedCv_length : oversizedCv.length = 100001 := by
  show (List.replicate 100001 'b').length = 100001
  rw [List.length_replicate]

theorem claim_C8_witness :
    (∃ msg, scoreInterviewLocalPhase (.jObj [("transcript", .jStr oversizedTranscript)]) =
      .reject 400 msg) ∧
    scoreInterviewLocalPhase
        (.jObj [("transcript", .jStr "Interviewer: hello."), ("cvText", .jStr oversizedCv)]) =
      .reject 400 ("CV text exceeds maximum length") ∧
    scoreInterviewLocalPhase
        (.jObj [("transcript", .jStr "Interviewer: hello."), ("cvText", .jStr "A short CV.")]) =
      .callModel (buildUserContent (some "A short CV.") "Interviewer: hello.") :=
  ⟨claim_C8_size_bounds_fail_fast.1 (.jObj [("transcript", .jStr oversizedTranscript)])
      oversizedTranscript (by rfl)
      (by rw [oversizedTranscript_length]; decide),
   claim_C8_size_bounds_fail_fast.2.1
      (.jObj [("transcript", .jStr "Interviewer: hello."), ("cvText", .jStr oversizedCv)])
      ("Interviewer: hello.") oversizedCv (by rfl) (by decide) (by decide) (by decide) (by rfl)
      (by rw [oversizedCv_length]; decide),
   (claim_C8_size_bounds_fail_fast.2.2
      (.jObj [("transcript", .jStr "Interviewer: hello."), ("cvText", .jStr "A short CV.")])
      ("Interviewer: hello.") (by rfl) (by decide) (by decide) (by decide)).2
      ("A short CV.") (by rfl) (by decide)⟩

-- ─── JSON.parse model and response-text parsing (C7) ────────────────────────

/-- JSON whitespace (the four characters `JSON.parse` skips). -/
def isJsonWs (c : Char) : Bool := c = ' ' ∨ c = '\t' ∨ c = '\n' ∨ c = '\r'

/-- Skip leading JSON whitespace. -/
def skipWs (cs : List Char) : List Char := cs.dropWhile isJsonWs

/-- Hex digit value, for `\uXXXX` escapes. -/
def hexDigitVal (c : Char) : Option ℕ :=
  if '0' ≤ c ∧ c ≤ '9' then some (c.toNat - 48)
  else if 'a' ≤ c ∧ c ≤ 'f' then some (c.toNat - 87)
  else if 'A' ≤ c ∧ c ≤ 'F' then some (c.toNat - 55)
  else none

/-- Decode a single-character escape. -/
def escDecode (esc : Char) : Option Char :=
  if esc = '"' then some '"'
  else if esc = '\\' then some '\\'
  else if esc = '/' then some '/'
  else if esc = 'n' then some '\n'
  else if esc = 't' then some '\t'
  else if esc = 'r' then some '\r'
  else if esc = 'b' then some '\x08'
  else if esc = 'f' then some '\x0c'
  else none

/-- Parse the remainder of a JSON string after the opening quote:
returns the decoded characters and the input after the closing quote. -/
def parseStringChars : List Char → Option (List Char × List Char)
  | [] => none
  | '"' :: rest => some ([], rest)
  | '\\' :: 'u' :: h1 :: h2 :: h3 :: h4 :: rest =>
    match hexDigitVal h1, hexDigitVal h2, hexDigitVal h3, hexDigitVal h4 with
    | some a, some b, some c, some d =>
      (parseStringChars rest).map (fun p => (Char.ofNat (4096 * a + 256 * b + 16 * c + d) :: p.1, p.2))
    | _, _, _, _ => none
  | '\\' :: esc :: rest =>
    match escDecode esc with
    | some decoded => (parseStringChars rest).map (fun p => (decoded :: p.1, p.2))
    | none => none
  | c :: rest => (parseStringChars rest).map (fun p => (c :: p.1, p.2))

/-- Digits to a natural number. -/
def digitsToNat (ds : List Char) : ℕ := ds.foldl (fun a c => 10 * a + (c.toNat - 48)) 0

/-- Parse a JSON number (sign, integer part, optional fraction and
exponent), returning its exact rational value. -/
def parseNumberChars (cs : List Char) : Option (ℚ × List Char) :=
  let (neg, cs1) :=
    match cs with
    | '-' :: r => (true, r)
    | _ => (false, cs)
  let intDigits := cs1.takeWhile Char.isDigit
  let cs2 := cs1.dropWhile Char.isDigit
  if intDigits.isEmpty then none
  else
    let (fracOk, fracDigits, cs3) :=
      match cs2 with
      | '.' :: r => (!(r.takeWhile Char.isDigit).isEmpty, r.takeWhile Char.isDigit,
          r.dropWhile Char.isDigit)
      | _ => (true, [], cs2)
    if !fracOk then none
    else
      let (expOk, expNeg, expDigits, cs4) :=
        match cs3 with
        | 'e' :: r | 'E' :: r =>
          match r with
          | '+' :: r2 => (!(r2.takeWhile Char.isDigit).isEmpty, false,
              r2.takeWhile Char.isDigit, r2.dropWhile Char.isDigit)
          | '-' :: r2 => (!(r2.takeWhile Char.isDigit).isEmpty, true,
              r2.takeWhile Char.isDigit, r2.dropWhile Char.isDigit)
          | _ => (!(r.takeWhile Char.isDigit).isEmpty, false,
              r.takeWhile Char.isDigit, r.dropWhile Char.isDigit)
        | _ => (true, false, [], cs3)
      if !expOk then none
      else
        let mantNat : ℕ := digitsToNat intDigits * 10 ^ fracDigits.length + digitsToNat fracDigits
        let mant : ℤ := if neg then -(mantNat : ℤ) else (mantNat : ℤ)
        let e := digitsToNat expDigits
        let q : ℚ :=
          if expNeg then mkRat mant (10 ^ (fracDigits.length + e))
          else mkRat (mant * 10 ^ e) (10 ^ fracDigits.length)
        some (q, cs4)

mutual

/-- Parse one JSON value (fuel-bounded recursive descent; the fuel is
an upper bound on nesting used only to convince the recursion checker —
`jsonParse` supplies more fuel than any input can consume). -/
def parseValue : ℕ → List Char → Option (JsValue × List Char)
  | 0, _ => none
  | fuel + 1, cs =>
    match skipWs cs with
    | [] => none
    | '{' :: rest => parseMembers fuel rest true []
    | '[' :: rest => parseElements fuel rest true []
    | '"' :: rest =>
      match parseStringChars rest with
      | some (s, r) => some (.jStr (String.mk s), r)
      | none => none
    | 't' :: 'r' :: 'u' :: 'e' :: rest => some (.jBool true, rest)
    | 'f' :: 'a' :: 'l' :: 's' :: 'e' :: rest => some (.jBool false, rest)
    | 'n' :: 'u' :: 'l' :: 'l' :: rest => some (.jNull, rest)
    | c :: rest =>
      if c = '-' ∨ c.isDigit then
        match parseNumberChars (c :: rest) with
        | some (q, r) => some (.jNum (.finite q), r)
        | none => none
      else none

/-- Parse object members after `{` (`first` is true while no member
has been read, so that `{}` is accepted but a trailing comma is not). -/
def parseMembers : ℕ → List Char → Bool → List (String × JsValue) → Option (JsValue × List Char)
  | 0, _, _, _ => none
  | fuel + 1, cs, first, acc =>
    match skipWs cs with
    | '}' :: rest => if first then some (.jObj acc.reverse, rest) else none
    | '"' :: rest =>
      match parseStringChars rest with
      | some (key, r1) =>
        match skipWs r1 with
        | ':' :: r2 =>
          match parseValue fuel r2 with
          | some (v, r3) =>
            match skipWs r3 with
            | ',' :: r4 => parseMembers fuel r4 false ((String.mk key, v) :: acc)
            | '}' :: r4 => some (.jObj (((String.mk key, v) :: acc).reverse), r4)
            | _ => none
          | none => none
        | _ => none
      | none => none
    | _ => none

/-- Parse array elements after `[`. -/
def parseElements : ℕ → List Char → Bool → List JsValue → Option (JsValue × List Char)
  | 0, _, _, _ => none
  | fuel + 1, cs, first, acc =>
    match skipWs cs, first with
    | ']' :: rest, true => some (.jArr acc.reverse, rest)
    | cs2, _ =>
      match parseValue fuel cs2 with
      | some (v, r1) =>
        match skipWs r1 with
        | ',' :: r2 => parseElements fuel r2 false (v :: acc)
        | ']' :: r2 => some (.jArr ((v :: acc).reverse), r2)
        | _ => none
      | none => none

end

/-- `JSON.parse`: parse one value and require only whitespace to
follow. -/
def jsonParse (s : String) : Option JsValue :=
  match parseValue (s.length + 1) s.data with
  | some (v, rest) => if (skipWs rest).isEmpty then some v else none
  | none => none

/-- Split a list at the first occurrence of `c`: the prefix before it
(which does not contain `c`) and the suffix after it. -/
def breakAtFirst (c : Char) : List Char → Option (List Char × List Char)
  | [] => none
  | x :: xs =>
    if x = c then some ([], xs)
    else
      match breakAtFirst c xs with
      | some p => some (x :: p.1, p.2)
      | none => none

theorem breakAtFirst_spec (c : Char) :
    ∀ (l pre rest : List Char), breakAtFirst c l = some (pre, rest) →
      l = pre ++ c :: rest ∧ c ∉ pre := by
  intro l
  induction l with
  | nil => intro pre rest h; simp [breakAtFirst] at h
  | cons x xs ih =>
    intro pre rest h
    unfold breakAtFirst at h
    split at h
    case isTrue hx =>
      simp only [Option.some.injEq, Prod.mk.injEq] at h
      obtain ⟨h1, h2⟩ := h
      subst h1; subst h2; subst hx
      simp
    case isFalse hx =>
      split at h
      case h_1 p hp =>
        simp only [Option.some.injEq, Prod.mk.injEq] at h
        obtain ⟨h1, h2⟩ := h
        obtain ⟨hl, hmem⟩ := ih p.1 p.2 (by rw [hp])
        subst h1; subst h2
        constructor
        · simp [hl]
        · simp only [List.mem_cons, not_or]
          exact ⟨fun hcv => hx hcv.symm, hmem⟩
      case h_2 => simp at h
    
/-- The fallback extraction `responseText.match(/\{[\s\S]*\}/)`: the
greedy regex matches from the first `{` in the text through the last
`}` (provided that `}` comes after that `{`), not the first balanced
object. -/
def extractJsonBlock (s : String) : Option String :=
  match breakAtFirst '{' s.data with
  | none => none
  | some p =>
    match breakAtFirst '}' p.2.reverse with
    | none => none
    | some q => some (String.mk ('{' :: (q.2.reverse ++ ['}'])))

/-- Step 7 of the `POST` handler: try a raw `JSON.parse` of the trimmed
response text; on failure, extract the `/\{[\s\S]*\}/` span and parse
that; `none` is the "Failed to score the interview" outcome. -/
def parseScoringText (responseText : String) : Option JsValue :=
  match jsonParse (jsTrim responseText) with
  | some v => some v
  | none =>
    match extractJsonBlock responseText with
    | some block => jsonParse block
    | none => none

/-- Depth scan for the spec-side extraction: consumes characters,
tracking brace depth, and returns the consumed prefix once the depth
returns to zero. -/
def balancedScan : List Char → ℕ → List Char → Option (List Char)
  | [], _, _ => none
  | c :: rest, depth, acc =>
    if c = '{' then balancedScan rest (depth + 1) (c :: acc)
    else if c = '}' then
      if depth = 1 then some ((c :: acc).reverse)
      else balancedScan rest (depth - 1) (c :: acc)
    else balancedScan rest depth (c :: acc)

/-- Modelled from the spec: "falling back to extracting the first
balanced object if raw parsing fails" — the code under `src/` instead
extracts the greedy first-`{`-to-last-`}` span, so this definition
exists only to compare the spec's words with `extractJsonBlock`. -/
def firstBalancedObjectSpec (s : String) : Option String :=
  match breakAtFirst '{' s.data with
  | none => none
  | some p => (balancedScan ('{' :: p.2) 0 []).map String.mk

/-- A response containing two balanced objects: the first balanced
object is valid JSON, but the code's greedy span is not. -/
def c7Input : String := "Here are two objects: \x7b\"a\": 1\x7d and \x7b\"b\": 2\x7d"

/-- C7 counterexample: on `c7Input` the raw parse fails and the first
balanced object `{"a": 1}` parses fine, so under the claim the
orchestrator would have a result — but the code's fallback takes the
greedy first-`{`-to-last-`}` span `{"a": 1} and {"b": 2}`, which does
not parse, and the attempt ends in the failed-to-score outcome. -/
theorem claim_C7_counterexample :
    (jsonParse (jsTrim c7Input)).isNone = true ∧
    firstBalancedObjectSpec c7Input = some ("\x7b\"a\": 1\x7d") ∧
    (jsonParse ("\x7b\"a\": 1\x7d")).isSome = true ∧
    extractJsonBlock c7Input = some ("\x7b\"a\": 1\x7d and \x7b\"b\": 2\x7d") ∧
    (jsonParse ("\x7b\"a\": 1\x7d and \x7b\"b\": 2\x7d")).isNone = true ∧
    (parseScoringText c7Input).isNone = true := by
  refine ⟨by decide, by decide, by decide, by decide, by decide, by decide⟩

/-- C7 (amended): the orchestrator first attempts a raw parse of the
trimmed text; when that fails it falls back to extracting the span
from the first opening brace to the last closing brace of the text
(the greedy `/\{[\s\S]*\}/` match — not the first balanced object) and
parsing that; only if both fail does the attempt end in the opaque
failed-to-score outcome. -/
theorem claim_C7_parse_fallback (s : String) :
    (∀ v, parseScoringText s = some v →
      jsonParse (jsTrim s) = some v ∨
      (jsonParse (jsTrim s) = none ∧
        ∃ block, extractJsonBlock s = some block ∧ jsonParse block = some v)) ∧
    (parseScoringText s = none →
      jsonParse (jsTrim s) = none ∧
      ∀ block, extractJsonBlock s = some block → jsonParse block = none) ∧
    (∀ block, extractJsonBlock s = some block →
      ∃ pre mid post : List Char,
        s.data = pre ++ '{' :: (mid ++ '}' :: post) ∧
        block.data = '{' :: (mid ++ ['}']) ∧
        '{' ∉ pre ∧ '}' ∉ post) := by
  refine ⟨?_, ?_, ?_⟩
  · intro v h
    unfold parseScoringText at h
    split at h
    case h_1 w hw =>
      simp only [Option.some.injEq] at h
      subst h
      exact Or.inl hw
    case h_2 hw =>
      refine Or.inr ⟨hw, ?_⟩
      split at h
      case h_1 block hb => exact ⟨block, hb, h⟩
      case h_2 => simp at h
  · intro h
    unfold parseScoringText at h
    split at h
    case h_1 => simp at h
    case h_2 hw =>
      refine ⟨hw, ?_⟩
      intro block hb
      rw [hb] at h
      exact h
  · intro block hb
    unfold extractJsonBlock at hb
    split at hb
    case h_1 => simp at hb
    case h_2 p hp =>
      split at hb
      case h_1 => simp at hb
      case h_2 q hq =>
        simp only [Option.some.injEq] at hb
        obtain ⟨hl1, hnot1⟩ := breakAtFirst_spec '{' s.data p.1 p.2 (by rw [hp])
        obtain ⟨hl2, hnot2⟩ := breakAtFirst_spec '}' p.2.reverse q.1 q.2 (by rw [hq])
        have hp2 : p.2 = q.2.reverse ++ '}' :: q.1.reverse := by
          have := congrArg List.reverse hl2
          simpa [List.reverse_append] using this
        refine ⟨p.1, q.2.reverse, q.1.reverse, ?_, ?_, hnot1, ?_⟩
        · rw [hl1, hp2]
        · rw [← hb]
        · simpa using hnot2

/-- A fenced response: the raw parse fails, the extracted span parses. -/
def c7Fenced : String := "```json\n\x7b\"eloRating\": 1450\x7d\n```"

theorem claim_C7_witness :
    (jsonParse (jsTrim c7Fenced) = some (.jObj [("eloRating", .jNum (.finite 1450))]) ∨
      (jsonParse (jsTrim c7Fenced) = none ∧
        ∃ block, extractJsonBlock c7Fenced = some block ∧
          jsonParse block = some (.jObj [("eloRating", .jNum (.finite 1450))]))) ∧
    (∃ pre mid post : List Char,
      c7Fenced.data = pre ++ '{' :: (mid ++ '}' :: post) ∧
      ("\x7b\"eloRating\": 1450\x7d" : String).data = '{' :: (mid ++ ['}']) ∧
      '{' ∉ pre ∧ '}' ∉ post) :=
  ⟨(claim_C7_parse_fallback c7Fenced).1 (.jObj [("eloRating", .jNum (.finite 1450))]) rfl,
   (claim_C7_parse_fallback c7Fenced).2.2 ("\x7b\"eloRating\": 1450\x7d") rfl⟩

end WHI
